import Mathlib

/-!
Shallow embedding of Fyrox's animation value-blending core
(`src/animation/value.rs`): `TrackValue`, `ValueBinding`, `BoundValue`,
`BoundValueCollection` and their operations `weighted_clone`, `blend_with`,
`interpolate` and `apply`.

`f32` arithmetic is modelled by exact real arithmetic.  A Rust panic
(`assert_eq!` failure or `Option::unwrap` on `None`) is modelled by an
`Option`-valued embedding returning `none`; a normal return is `some`.
The logging collaborator (`Log::err`) is modelled by explicit state passing:
`apply` returns the mutated node together with the list of reported messages.
-/

namespace Fyrox

/-- Three-component `f32` vector (`nalgebra::Vector3<f32>`), over exact reals. -/
structure Vec3 where
  x : ℝ
  y : ℝ
  z : ℝ

/-- Componentwise scaling, `Vector3::scale`. -/
def Vec3.scale (v : Vec3) (weight : ℝ) : Vec3 :=
  ⟨v.x * weight, v.y * weight, v.z * weight⟩

/-- Componentwise addition (`+=` on `Vector3`). -/
def Vec3.add (a b : Vec3) : Vec3 :=
  ⟨a.x + b.x, a.y + b.y, a.z + b.z⟩

/-- `Vector3::lerp`: componentwise `a * (1 - t) + b * t`. -/
def Vec3.lerp (a b : Vec3) (t : ℝ) : Vec3 :=
  ⟨a.x * (1 - t) + b.x * t, a.y * (1 - t) + b.y * t, a.z * (1 - t) + b.z * t⟩

/-- Quaternion with components `i, j, k, w` (`nalgebra::Quaternion<f32>`),
over exact reals. -/
structure Quat where
  i : ℝ
  j : ℝ
  k : ℝ
  w : ℝ

/-- Componentwise quaternion linear interpolation,
`Quaternion::lerp = self * (1 - t) + other * t`. -/
def Quat.lerp (a b : Quat) (t : ℝ) : Quat :=
  ⟨a.i * (1 - t) + b.i * t, a.j * (1 - t) + b.j * t,
   a.k * (1 - t) + b.k * t, a.w * (1 - t) + b.w * t⟩

/-- Squared euclidean norm of a quaternion. -/
def Quat.normSq (q : Quat) : ℝ :=
  q.i ^ 2 + q.j ^ 2 + q.k ^ 2 + q.w ^ 2

/-- Euclidean norm of a quaternion. -/
noncomputable def Quat.norm (q : Quat) : ℝ :=
  Real.sqrt q.normSq

/-- Division of every component by the norm (`normalize_mut`, which divides
unconditionally, without guarding against a zero norm). -/
noncomputable def Quat.normalize (q : Quat) : Quat :=
  ⟨q.i / q.norm, q.j / q.norm, q.k / q.norm, q.w / q.norm⟩

/-- Modelled from the spec: "spherical (normalized-linear) interpolation"
(`UnitQuaternion::nlerp` of the external linear-algebra collaborator):
linearly interpolate the components, then re-normalize the result. -/
noncomputable def Quat.nlerp (a b : Quat) (t : ℝ) : Quat :=
  (a.lerp b t).normalize

/-- `TrackValue`: tagged union of a 3D vector and a rotation quaternion. -/
inductive TrackValue where
  | Vector3 (v : Vec3)
  | UnitQuaternion (q : Quat)

/-- `TrackValue::weighted_clone`. -/
def TrackValue.weightedClone : TrackValue → ℝ → TrackValue
  | .Vector3 v, weight => .Vector3 (v.scale weight)
  | .UnitQuaternion q, _ => .UnitQuaternion q

/-- `TrackValue::blend_with`: the final value of `self` (the code mutates
`self` in place). -/
noncomputable def TrackValue.blendWith : TrackValue → TrackValue → ℝ → TrackValue
  | .Vector3 a, .Vector3 b, weight => .Vector3 (a.add (b.scale weight))
  | .UnitQuaternion a, .UnitQuaternion b, weight => .UnitQuaternion (a.nlerp b weight)
  | a, _, _ => a

/-- `TrackValue::interpolate`: `none` on a variant mismatch. -/
noncomputable def TrackValue.interpolate : TrackValue → TrackValue → ℝ → Option TrackValue
  | .Vector3 a, .Vector3 b, t => some (.Vector3 (a.lerp b t))
  | .UnitQuaternion a, .UnitQuaternion b, t => some (.UnitQuaternion (a.nlerp b t))
  | _, _, _ => none

/-- Whether two `TrackValue`s hold the same variant. -/
def TrackValue.sameVariant : TrackValue → TrackValue → Bool
  | .Vector3 _, .Vector3 _ => true
  | .UnitQuaternion _, .UnitQuaternion _ => true
  | _, _ => false

/-- `ValueBinding`: the identity of the targeted property. -/
inductive ValueBinding where
  | Position
  | Scale
  | Rotation
  | Property (name : String)
deriving DecidableEq

/-- `BoundValue`: a `ValueBinding` paired with a `TrackValue`. -/
structure BoundValue where
  binding : ValueBinding
  value : TrackValue

/-- `BoundValue::weighted_clone`. -/
def BoundValue.weightedClone (v : BoundValue) (weight : ℝ) : BoundValue :=
  ⟨v.binding, v.value.weightedClone weight⟩

/-- `BoundValue::blend_with`: `assert_eq!(self.binding, other.binding)`
then delegate; the assertion failure (panic) is `none`. -/
noncomputable def BoundValue.blendWith (x y : BoundValue) (weight : ℝ) : Option BoundValue :=
  if x.binding = y.binding then
    some ⟨x.binding, x.value.blendWith y.value weight⟩
  else
    none

/-- `BoundValue::interpolate`: the outer `Option` is the
`assert_eq!(self.binding, other.binding)` panic; the inner `Option` is the
function's own `Option<Self>` return value. -/
noncomputable def BoundValue.interpolate (x y : BoundValue) (t : ℝ) :
    Option (Option BoundValue) :=
  if x.binding = y.binding then
    some ((x.value.interpolate y.value t).map (fun v => ⟨x.binding, v⟩))
  else
    none

/-- `BoundValueCollection`: ordered list of bound values. -/
structure BoundValueCollection where
  values : List BoundValue

/-- `other.values.iter().find(|v| v.binding == b)`. -/
def findBy (others : List BoundValue) (b : ValueBinding) : Option BoundValue :=
  others.find? (fun v => decide (v.binding = b))

/-- `BoundValueCollection::weighted_clone`. -/
def BoundValueCollection.weightedClone (c : BoundValueCollection) (weight : ℝ) :
    BoundValueCollection :=
  ⟨c.values.map (fun v => v.weightedClone weight)⟩

/-- The loop body of `BoundValueCollection::blend_with`, entry by entry;
`none` propagates a panic from `BoundValue::blend_with`. -/
noncomputable def blendValuesAux (vs others : List BoundValue) (weight : ℝ) :
    Option (List BoundValue) :=
  match vs with
  | [] => some []
  | v :: rest =>
    match findBy others v.binding with
    | none => (blendValuesAux rest others weight).map (fun ws => v :: ws)
    | some ov =>
      match v.blendWith ov weight with
      | none => none
      | some v2 => (blendValuesAux rest others weight).map (fun ws => v2 :: ws)

/-- `BoundValueCollection::blend_with`: the final state of `self`
(`none` models a panic). -/
noncomputable def BoundValueCollection.blendWith (s o : BoundValueCollection)
    (weight : ℝ) : Option BoundValueCollection :=
  (blendValuesAux s.values o.values weight).map BoundValueCollection.mk

/-- The loop body of `BoundValueCollection::interpolate`: entries of `self`
with no counterpart in `other` are skipped; a counterpart is combined with
`value.interpolate(other_value, t).unwrap()`, and the `unwrap` of `None`
(variant mismatch) as well as the inner `assert_eq!` panic are `none`. -/
noncomputable def interpValuesAux (vs others : List BoundValue) (t : ℝ) :
    Option (List BoundValue) :=
  match vs with
  | [] => some []
  | v :: rest =>
    match findBy others v.binding with
    | none => interpValuesAux rest others t
    | some ov =>
      match v.interpolate ov t with
      | none => none
      | some none => none
      | some (some nv) => (interpValuesAux rest others t).map (fun ws => nv :: ws)

/-- `BoundValueCollection::interpolate` (`none` models a panic). -/
noncomputable def BoundValueCollection.interpolate (s o : BoundValueCollection)
    (t : ℝ) : Option BoundValueCollection :=
  (interpValuesAux s.values o.values t).map BoundValueCollection.mk

/-- Modelled from the spec: the scene-graph collaborator's local transform,
exposing `set_position`, `set_scale`, `set_rotation` as plain field writes. -/
structure LocalTransform where
  position : Vec3
  scale : Vec3
  rotation : Quat

/-- Modelled from the spec: a scene node, exposing its local transform and a
reflective property graph addressed by string path, each resolved property
holding a runtime-typed value. -/
structure Node where
  localTransform : LocalTransform
  props : List (String × TrackValue)

/-- The literal message of the `Position` kind-mismatch branch of `apply`. -/
def errPositionMsg : String :=
  "Unable to apply position, because underlying type is not Vector3!"

/-- The literal message of the `Scale` kind-mismatch branch of `apply`. -/
def errScaleMsg : String :=
  "Unable to apply scaling, because underlying type is not Vector3!"

/-- The literal message of the `Rotation` kind-mismatch branch of `apply`. -/
def errRotationMsg : String :=
  "Unable to apply rotation, because underlying type is not UnitQuaternion!"

/-- The message of the property write type-mismatch branch of `apply`. -/
def errSetPropertyMsg (name : String) : String :=
  "Failed to set property " ++ name ++ "! Types mismatch."

/-- The message of the property resolution-failure branch of `apply`. -/
def errFindPropertyMsg (name : String) : String :=
  "Unable to find property " ++ name ++ "!"

/-- Modelled from the spec: writing a type-erased value through a resolved
property handle, succeeding exactly when the runtime types match. -/
def Node.setProp (n : Node) (name : String) (v : TrackValue) : Node :=
  { n with props := n.props.map (fun p => if p.1 = name then (name, v) else p) }

/-- One iteration of the `apply` loop: the updated node and the messages
reported to the logging collaborator during that iteration. -/
def applyOne (n : Node) (bv : BoundValue) : Node × List String :=
  match bv.binding with
  | .Position =>
    match bv.value with
    | .Vector3 v => ({ n with localTransform := { n.localTransform with position := v } }, [])
    | _ => (n, [errPositionMsg])
  | .Scale =>
    match bv.value with
    | .Vector3 v => ({ n with localTransform := { n.localTransform with scale := v } }, [])
    | _ => (n, [errScaleMsg])
  | .Rotation =>
    match bv.value with
    | .UnitQuaternion q =>
      ({ n with localTransform := { n.localTransform with rotation := q } }, [])
    | _ => (n, [errRotationMsg])
  | .Property name =>
    match n.props.find? (fun p => decide (p.1 = name)) with
    | none => (n, [errFindPropertyMsg name])
    | some slot =>
      if slot.2.sameVariant bv.value then (n.setProp name bv.value, [])
      else (n, [errSetPropertyMsg name])

/-- The `apply` loop over a list of bound values. -/
def applyValues : Node → List BoundValue → Node × List String
  | n, [] => (n, [])
  | n, v :: rest =>
    let r := applyOne n v
    let r2 := applyValues r.1 rest
    (r2.1, r.2 ++ r2.2)

/-- `BoundValueCollection::apply`: the mutated node and the reported log. -/
def BoundValueCollection.apply (c : BoundValueCollection) (n : Node) :
    Node × List String :=
  applyValues n c.values

/-- An entry whose binding is one of the transform channels but whose value
holds the wrong `TrackValue` variant for that channel. -/
def mismatchedTransformEntry (bv : BoundValue) : Prop :=
  (bv.binding = .Rotation ∧ ∃ v, bv.value = .Vector3 v) ∨
  ((bv.binding = .Position ∨ bv.binding = .Scale) ∧ ∃ q, bv.value = .UnitQuaternion q)

/-- The message `apply` reports for a transform entry of the wrong kind. -/
def transformErrMsg (bv : BoundValue) : String :=
  match bv.binding with
  | .Position => errPositionMsg
  | .Scale => errScaleMsg
  | .Rotation => errRotationMsg
  | .Property _ => ""

/-- The per-entry effect of a successful run of the `blend_with` loop. -/
noncomputable def blendStep (others : List BoundValue) (weight : ℝ) (v : BoundValue) :
    BoundValue :=
  match findBy others v.binding with
  | some ov => ⟨v.binding, v.value.blendWith ov.value weight⟩
  | none => v

theorem findBy_some_binding {others : List BoundValue} {b : ValueBinding}
    {ov : BoundValue} (h : findBy others b = some ov) : ov.binding = b := by
  have hp := List.find?_some h
  simpa using hp

theorem BoundValue.blendWith_eq_of_binding {x y : BoundValue} (weight : ℝ)
    (h : x.binding = y.binding) :
    x.blendWith y weight = some ⟨x.binding, x.value.blendWith y.value weight⟩ := by
  simp [BoundValue.blendWith, h]

theorem blendValuesAux_eq_map (others : List BoundValue) (weight : ℝ)
    (vs : List BoundValue) :
    blendValuesAux vs others weight = some (vs.map (blendStep others weight)) := by
  induction vs with
  | nil => rfl
  | cons v rest ih =>
    simp only [blendValuesAux, List.map_cons]
    cases hf : findBy others v.binding with
    | none => simp [ih, blendStep, hf]
    | some ov =>
      have hb : v.binding = ov.binding := (findBy_some_binding hf).symm
      dsimp only
      rw [BoundValue.blendWith_eq_of_binding weight hb]
      simp [ih, blendStep, hf]

theorem BoundValueCollection.blendWith_eq (s o : BoundValueCollection) (weight : ℝ) :
    s.blendWith o weight = some ⟨s.values.map (blendStep o.values weight)⟩ := by
  simp [BoundValueCollection.blendWith, blendValuesAux_eq_map]

theorem blendStep_binding (others : List BoundValue) (weight : ℝ) (v : BoundValue) :
    (blendStep others weight v).binding = v.binding := by
  unfold blendStep
  cases findBy others v.binding <;> rfl

theorem findBy_eq_none_iff (others : List BoundValue) (b : ValueBinding) :
    findBy others b = none ↔ ∀ ov ∈ others, ov.binding ≠ b := by
  simp [findBy, List.find?_eq_none]

theorem blendStep_eq_self {others : List BoundValue} {weight : ℝ} {v : BoundValue}
    (h : ∀ ov ∈ others, ov.binding ≠ v.binding) : blendStep others weight v = v := by
  have hf : findBy others v.binding = none := (findBy_eq_none_iff others v.binding).mpr h
  simp [blendStep, hf]

theorem TrackValue.interpolate_isSome_of_sameVariant {a b : TrackValue} (t : ℝ)
    (h : a.sameVariant b = true) : ∃ c, a.interpolate b t = some c := by
  cases a <;> cases b <;> simp_all [TrackValue.sameVariant, TrackValue.interpolate]

theorem BoundValue.interpolate_eq_of_binding {x y : BoundValue} (t : ℝ)
    (h : x.binding = y.binding) :
    x.interpolate y t =
      some ((x.value.interpolate y.value t).map (fun v => ⟨x.binding, v⟩)) := by
  simp [BoundValue.interpolate, h]

theorem BoundValue.interpolate_some_binding {x y : BoundValue} {t : ℝ}
    {nv : BoundValue} (h : x.interpolate y t = some (some nv)) :
    nv.binding = x.binding := by
  unfold BoundValue.interpolate at h
  split at h
  · rw [Option.some_inj] at h
    obtain ⟨c, hc, hfc⟩ := Option.map_eq_some'.mp h
    subst hfc
    rfl
  · exact absurd h (by simp)

theorem interpValuesAux_isSome (others : List BoundValue) (t : ℝ)
    (vs : List BoundValue)
    (h : ∀ v ∈ vs, ∀ ov, findBy others v.binding = some ov →
      v.value.sameVariant ov.value = true) :
    (interpValuesAux vs others t).isSome = true := by
  induction vs with
  | nil => rfl
  | cons v rest ih =>
    have hrest := ih (fun v' hv' => h v' (List.mem_cons_of_mem _ hv'))
    simp only [interpValuesAux]
    cases hf : findBy others v.binding with
    | none => exact hrest
    | some ov =>
      have hb : v.binding = ov.binding := (findBy_some_binding hf).symm
      obtain ⟨c, hc⟩ :=
        TrackValue.interpolate_isSome_of_sameVariant t (h v (List.mem_cons_self _ _) ov hf)
      dsimp only
      rw [BoundValue.interpolate_eq_of_binding t hb, hc]
      obtain ⟨ws, hws⟩ := Option.isSome_iff_exists.mp hrest
      simp [hws]

theorem interpValuesAux_bindings (others : List BoundValue) (t : ℝ) :
    ∀ vs ws, interpValuesAux vs others t = some ws →
      ws.map (fun v => v.binding) =
        (vs.filter (fun v => (findBy others v.binding).isSome)).map
          (fun v => v.binding) := by
  intro vs
  induction vs with
  | nil =>
    intro ws h
    simp only [interpValuesAux, Option.some_inj] at h
    subst h
    rfl
  | cons v rest ih =>
    intro ws h
    simp only [interpValuesAux] at h
    cases hf : findBy others v.binding with
    | none =>
      rw [hf] at h
      dsimp only at h
      have := ih ws h
      simpa [List.filter_cons, hf] using this
    | some ov =>
      rw [hf] at h
      dsimp only at h
      cases hi : v.interpolate ov t with
      | none =>
        rw [hi] at h
        simp at h
      | some inner =>
        rw [hi] at h
        cases inner with
        | none => simp at h
        | some nv =>
          dsimp only at h
          simp only [Option.map_eq_some'] at h
          obtain ⟨ws', hws', hcons⟩ := h
          subst hcons
          have hnv : nv.binding = v.binding := BoundValue.interpolate_some_binding hi
          simp [List.filter_cons, hf, ih ws' hws', hnv]

theorem findBy_isSome_iff (others : List BoundValue) (b : ValueBinding) :
    (findBy others b).isSome = true ↔ ∃ ov ∈ others, ov.binding = b := by
  simp [findBy, List.find?_isSome]

theorem applyValues_append (l1 l2 : List BoundValue) (n : Node) :
    applyValues n (l1 ++ l2) =
      ((applyValues (applyValues n l1).1 l2).1,
       (applyValues n l1).2 ++ (applyValues (applyValues n l1).1 l2).2) := by
  induction l1 generalizing n with
  | nil => simp [applyValues]
  | cons v rest ih => simp [applyValues, ih, List.append_assoc]

theorem applyOne_mismatched {bv : BoundValue} (h : mismatchedTransformEntry bv)
    (n : Node) : applyOne n bv = (n, [transformErrMsg bv]) := by
  rcases h with ⟨hb, v, hv⟩ | ⟨hb | hb, q, hq⟩
  · simp [applyOne, transformErrMsg, hb, hv]
  · simp [applyOne, transformErrMsg, hb, hq]
  · simp [applyOne, transformErrMsg, hb, hq]

theorem Quat.normSq_nonneg (q : Quat) : 0 ≤ q.normSq := by
  unfold Quat.normSq
  positivity

theorem Quat.normSq_normalize {q : Quat} (h : q.normSq ≠ 0) :
    q.normalize.normSq = 1 := by
  have hpos : 0 < q.normSq := lt_of_le_of_ne q.normSq_nonneg (Ne.symm h)
  have hn : q.norm ≠ 0 := by
    unfold Quat.norm
    exact ne_of_gt (Real.sqrt_pos.mpr hpos)
  have hn2 : q.norm ^ 2 = q.normSq := Real.sq_sqrt q.normSq_nonneg
  show (q.i / q.norm) ^ 2 + (q.j / q.norm) ^ 2 + (q.k / q.norm) ^ 2 +
    (q.w / q.norm) ^ 2 = 1
  rw [div_pow, div_pow, div_pow, div_pow, div_add_div_same, div_add_div_same,
    div_add_div_same, hn2]
  exact div_self h

/-- A concrete node used to instantiate the apply-level statements. -/
def sampleNode : Node :=
  ⟨⟨⟨0, 0, 0⟩, ⟨1, 1, 1⟩, ⟨0, 0, 0, 1⟩⟩, []⟩

/-- C4: `TrackValue::blend_with` accumulates `self += other * weight`
componentwise when both values are vectors, replaces `self` by the
normalized-linear interpolation toward `other` by fraction `weight` when both
are rotations, and leaves `self` exactly unchanged (silent no-op) when the
variants differ. -/
theorem trackValue_blendWith_cases (a b : Vec3) (qa qb : Quat) (weight : ℝ) :
    TrackValue.blendWith (.Vector3 a) (.Vector3 b) weight =
      .Vector3 ⟨a.x + b.x * weight, a.y + b.y * weight, a.z + b.z * weight⟩ ∧
    TrackValue.blendWith (.UnitQuaternion qa) (.UnitQuaternion qb) weight =
      .UnitQuaternion (qa.nlerp qb weight) ∧
    TrackValue.blendWith (.Vector3 a) (.UnitQuaternion qb) weight = .Vector3 a ∧
    TrackValue.blendWith (.UnitQuaternion qa) (.Vector3 b) weight =
      .UnitQuaternion qa :=
  ⟨rfl, rfl, rfl, rfl⟩

/-- C9: `TrackValue::weighted_clone` is the identity at weight `1` on vectors,
yields the zero vector at weight `0` on vectors, and returns an unchanged copy
of a rotation at every weight. -/
theorem trackValue_weightedClone_identities (v : Vec3) (q : Quat) (weight : ℝ) :
    TrackValue.weightedClone (.Vector3 v) 1 = .Vector3 v ∧
    TrackValue.weightedClone (.Vector3 v) 0 = .Vector3 ⟨0, 0, 0⟩ ∧
    TrackValue.weightedClone (.UnitQuaternion q) weight = .UnitQuaternion q := by
  refine ⟨?_, ?_, rfl⟩ <;> simp [TrackValue.weightedClone, Vec3.scale]

/-- C2: `BoundValue::blend_with` and `BoundValue::interpolate` panic (the
embedded `none`) exactly when the two bindings differ; with equal bindings
they return normally and delegate to the `TrackValue` operation. -/
theorem boundValue_combine_panics_iff_mismatch (x y : BoundValue) (weight t : ℝ) :
    (x.blendWith y weight = none ↔ x.binding ≠ y.binding) ∧
    (x.interpolate y t = none ↔ x.binding ≠ y.binding) ∧
    (x.binding = y.binding →
      x.blendWith y weight = some ⟨x.binding, x.value.blendWith y.value weight⟩ ∧
      x.interpolate y t =
        some ((x.value.interpolate y.value t).map (fun v => ⟨x.binding, v⟩))) := by
  refine ⟨?_, ?_, fun h => ⟨BoundValue.blendWith_eq_of_binding weight h,
    BoundValue.interpolate_eq_of_binding t h⟩⟩
  · simp only [BoundValue.blendWith]
    split <;> simp_all
  · simp only [BoundValue.interpolate]
    split <;> simp_all

/-- Witness for C2: a mismatched pair panics in both operations and an
equal-binding pair blends normally. -/
theorem boundValue_combine_panics_iff_mismatch_w :
    BoundValue.blendWith ⟨.Position, .Vector3 ⟨1, 0, 0⟩⟩
      ⟨.Rotation, .UnitQuaternion ⟨0, 0, 0, 1⟩⟩ 1 = none ∧
    BoundValue.interpolate ⟨.Position, .Vector3 ⟨1, 0, 0⟩⟩
      ⟨.Rotation, .UnitQuaternion ⟨0, 0, 0, 1⟩⟩ 0 = none ∧
    BoundValue.blendWith ⟨.Position, .Vector3 ⟨1, 0, 0⟩⟩
      ⟨.Position, .Vector3 ⟨0, 1, 0⟩⟩ 1 =
      some ⟨.Position,
        TrackValue.blendWith (.Vector3 ⟨1, 0, 0⟩) (.Vector3 ⟨0, 1, 0⟩) 1⟩ := by
  have h1 := boundValue_combine_panics_iff_mismatch
    ⟨.Position, .Vector3 ⟨1, 0, 0⟩⟩ ⟨.Rotation, .UnitQuaternion ⟨0, 0, 0, 1⟩⟩ 1 0
  have h2 := boundValue_combine_panics_iff_mismatch
    ⟨.Position, .Vector3 ⟨1, 0, 0⟩⟩ ⟨.Position, .Vector3 ⟨0, 1, 0⟩⟩ 1 0
  exact ⟨h1.1.mpr (by decide), h1.2.1.mpr (by decide), (h2.2.2 rfl).1⟩

/-- C10: collection `blend_with` returns normally and preserves the length,
order and binding of every entry of `self`; bindings present only in `other`
are never added, so the result's bindings are exactly those of `self`. -/
theorem collection_blendWith_preserves_shape (s o : BoundValueCollection)
    (weight : ℝ) :
    ∃ r, s.blendWith o weight = some r ∧
      r.values.map (fun v => v.binding) = s.values.map (fun v => v.binding) ∧
      r.values.length = s.values.length := by
  refine ⟨⟨s.values.map (blendStep o.values weight)⟩,
    BoundValueCollection.blendWith_eq s o weight, ?_, by simp⟩
  induction s.values with
  | nil => rfl
  | cons v rest ih => simp [ih, blendStep_binding]

/-- C6: an entry of `self` whose binding has no match in `other` is left
exactly unchanged by collection `blend_with`; if no binding of `self` occurs
in `other`, `self` is unchanged as a whole. -/
theorem collection_blendWith_no_match_unchanged (s o : BoundValueCollection)
    (weight : ℝ) :
    (∀ (i : ℕ) (v : BoundValue), s.values[i]? = some v →
      (∀ ov ∈ o.values, ov.binding ≠ v.binding) →
      ∃ r, s.blendWith o weight = some r ∧ r.values[i]? = some v) ∧
    ((∀ v ∈ s.values, ∀ ov ∈ o.values, ov.binding ≠ v.binding) →
      s.blendWith o weight = some s) := by
  constructor
  · intro i v hv hno
    refine ⟨⟨s.values.map (blendStep o.values weight)⟩,
      BoundValueCollection.blendWith_eq s o weight, ?_⟩
    rw [List.getElem?_map, hv]
    simp [blendStep_eq_self hno]
  · intro hall
    have hmap : ∀ l : List BoundValue,
        (∀ v ∈ l, ∀ ov ∈ o.values, ov.binding ≠ v.binding) →
        l.map (blendStep o.values weight) = l := by
      intro l
      induction l with
      | nil => intro _; rfl
      | cons v rest ih =>
        intro h
        rw [List.map_cons, blendStep_eq_self (h v (List.mem_cons_self _ _)),
          ih (fun v' hv' => h v' (List.mem_cons_of_mem _ hv'))]
    rw [BoundValueCollection.blendWith_eq, hmap s.values hall]

/-- Witness for C6: a `Position` entry is untouched by a layer that only
carries a `Scale` entry. -/
theorem collection_blendWith_no_match_unchanged_w :
    BoundValueCollection.blendWith ⟨[⟨.Position, .Vector3 ⟨1, 2, 3⟩⟩]⟩
      ⟨[⟨.Scale, .Vector3 ⟨4, 5, 6⟩⟩]⟩ 2 =
      some ⟨[⟨.Position, .Vector3 ⟨1, 2, 3⟩⟩]⟩ := by
  refine (collection_blendWith_no_match_unchanged
    ⟨[⟨.Position, .Vector3 ⟨1, 2, 3⟩⟩]⟩ ⟨[⟨.Scale, .Vector3 ⟨4, 5, 6⟩⟩]⟩ 2).2 ?_
  intro v hv ov hov
  rw [List.mem_singleton] at hv hov
  subst hv
  subst hov
  simp

/-- C7: blending the single-`Position` collection holding `(1,0,0)` with a
layer contributing `(0,1,0)` at weight `0.5` yields `(1, 0.5, 0)`. -/
theorem collection_blendWith_example :
    BoundValueCollection.blendWith ⟨[⟨.Position, .Vector3 ⟨1, 0, 0⟩⟩]⟩
      ⟨[⟨.Position, .Vector3 ⟨0, 1, 0⟩⟩]⟩ 0.5 =
      some ⟨[⟨.Position, .Vector3 ⟨1, 0.5, 0⟩⟩]⟩ := by
  rw [BoundValueCollection.blendWith_eq]
  norm_num [blendStep, TrackValue.blendWith, Vec3.add, Vec3.scale,
    show findBy [(⟨.Position, .Vector3 ⟨0, 1, 0⟩⟩ : BoundValue)]
      ValueBinding.Position = some ⟨.Position, .Vector3 ⟨0, 1, 0⟩⟩ from rfl]

/-- C1 counterexample: two collections sharing the binding `Position` whose
entries hold different `TrackValue` variants make collection `interpolate`
panic (the `unwrap` of the per-value `None`), modelled as `none`, instead of
signalling an empty result to the caller. -/
theorem collection_interpolate_mismatch_panics :
    BoundValueCollection.interpolate ⟨[⟨.Position, .Vector3 ⟨0, 0, 0⟩⟩]⟩
      ⟨[⟨.Position, .UnitQuaternion ⟨0, 0, 0, 1⟩⟩]⟩ 0 = none := rfl

/-- C1 (amended): collection `interpolate` returns normally provided every
entry of `self` whose binding finds a (first) counterpart in `other` holds
the same `TrackValue` variant as that counterpart; on a variant mismatch the
per-value `None` is unwrapped and the whole call panics rather than
returning an empty result. -/
theorem collection_interpolate_total_of_same_variants
    (a b : BoundValueCollection) (t : ℝ)
    (h : ∀ v ∈ a.values, ∀ ov, findBy b.values v.binding = some ov →
      v.value.sameVariant ov.value = true) :
    (a.interpolate b t).isSome = true := by
  obtain ⟨ws, hws⟩ :=
    Option.isSome_iff_exists.mp (interpValuesAux_isSome b.values t a.values h)
  simp [BoundValueCollection.interpolate, hws]

/-- Witness for C1 (amended) on two variant-compatible collections. -/
theorem collection_interpolate_total_of_same_variants_w :
    (BoundValueCollection.interpolate ⟨[⟨.Position, .Vector3 ⟨1, 2, 3⟩⟩]⟩
      ⟨[⟨.Position, .Vector3 ⟨4, 5, 6⟩⟩]⟩ 1).isSome = true := by
  apply collection_interpolate_total_of_same_variants
  intro v hv ov hov
  rw [List.mem_singleton] at hv
  subst hv
  rw [show findBy [(⟨.Position, .Vector3 ⟨4, 5, 6⟩⟩ : BoundValue)]
    (⟨.Position, .Vector3 (⟨1, 2, 3⟩ : Vec3)⟩ : BoundValue).binding =
    some ⟨.Position, .Vector3 ⟨4, 5, 6⟩⟩ from rfl] at hov
  cases hov
  rfl

/-- C3: whenever collection `interpolate` returns a collection, that
collection's binding set is exactly the intersection of the binding sets of
`self` and `other`; bindings unique to either side are absent. -/
theorem collection_interpolate_bindings_intersection
    (a b c : BoundValueCollection) (t : ℝ)
    (_hna : (a.values.map (fun v => v.binding)).Nodup)
    (_hnb : (b.values.map (fun v => v.binding)).Nodup)
    (h : a.interpolate b t = some c) :
    ∀ bnd : ValueBinding, (∃ v ∈ c.values, v.binding = bnd) ↔
      ((∃ v ∈ a.values, v.binding = bnd) ∧ (∃ v ∈ b.values, v.binding = bnd)) := by
  simp only [BoundValueCollection.interpolate, Option.map_eq_some'] at h
  obtain ⟨ws, hws, hc⟩ := h
  subst hc
  intro bnd
  have hbind := interpValuesAux_bindings b.values t a.values ws hws
  constructor
  · rintro ⟨v, hv, rfl⟩
    have hmem : v.binding ∈ ws.map (fun v => v.binding) :=
      List.mem_map_of_mem _ hv
    rw [hbind] at hmem
    obtain ⟨v', hv', heq⟩ := List.mem_map.mp hmem
    have hv'mem := List.mem_filter.mp hv'
    obtain ⟨ov, hovmem, hovb⟩ :=
      (findBy_isSome_iff b.values v'.binding).mp hv'mem.2
    exact ⟨⟨v', hv'mem.1, heq⟩, ⟨ov, hovmem, by rw [hovb, heq]⟩⟩
  · rintro ⟨⟨v, hv, rfl⟩, ⟨ov, hov, hovb⟩⟩
    have hfil : v ∈ a.values.filter
        (fun v => (findBy b.values v.binding).isSome) :=
      List.mem_filter.mpr ⟨hv, (findBy_isSome_iff b.values v.binding).mpr
        ⟨ov, hov, hovb⟩⟩
    have hmem : v.binding ∈ ws.map (fun v => v.binding) := by
      rw [hbind]
      exact List.mem_map_of_mem _ hfil
    obtain ⟨w, hw, hwb⟩ := List.mem_map.mp hmem
    exact ⟨w, hw, hwb⟩

/-- Witness for C3 on two singleton collections sharing the `Position`
binding. -/
theorem collection_interpolate_bindings_intersection_w :
    ((∃ v ∈ ([⟨.Position, .Vector3 ⟨0, 0, 0⟩⟩] : List BoundValue),
        v.binding = ValueBinding.Position) ↔
      ((∃ v ∈ ([⟨.Position, .Vector3 ⟨0, 0, 0⟩⟩] : List BoundValue),
        v.binding = ValueBinding.Position) ∧
       (∃ v ∈ ([⟨.Position, .Vector3 ⟨0, 0, 0⟩⟩] : List BoundValue),
        v.binding = ValueBinding.Position))) := by
  have h0 : interpValuesAux [⟨.Position, .Vector3 ⟨0, 0, 0⟩⟩]
      [⟨.Position, .Vector3 ⟨0, 0, 0⟩⟩] 1 =
      some [⟨.Position, .Vector3 (Vec3.lerp ⟨0, 0, 0⟩ ⟨0, 0, 0⟩ 1)⟩] := rfl
  have h1 : Vec3.lerp ⟨0, 0, 0⟩ ⟨0, 0, 0⟩ 1 = (⟨0, 0, 0⟩ : Vec3) := by
    norm_num [Vec3.lerp]
  have h : BoundValueCollection.interpolate ⟨[⟨.Position, .Vector3 ⟨0, 0, 0⟩⟩]⟩
      ⟨[⟨.Position, .Vector3 ⟨0, 0, 0⟩⟩]⟩ 1 =
      some ⟨[⟨.Position, .Vector3 ⟨0, 0, 0⟩⟩]⟩ := by
    simp only [BoundValueCollection.interpolate]
    rw [h0, h1]
    rfl
  exact collection_interpolate_bindings_intersection
    ⟨[⟨.Position, .Vector3 ⟨0, 0, 0⟩⟩]⟩ ⟨[⟨.Position, .Vector3 ⟨0, 0, 0⟩⟩]⟩
    ⟨[⟨.Position, .Vector3 ⟨0, 0, 0⟩⟩]⟩ 1 (by simp) (by simp) h
    ValueBinding.Position

/-- C5: `apply` on a collection containing a transform-channel entry holding
the wrong variant reports the corresponding error message, skips that write
(the node ends up exactly as if the entry were absent, so the corresponding
transform component is unchanged), and still applies every other entry. -/
theorem collection_apply_skips_mismatched_transform
    (bv : BoundValue) (h : mismatchedTransformEntry bv)
    (pre post : List BoundValue) (n : Node) :
    (BoundValueCollection.apply ⟨pre ++ bv :: post⟩ n).1 =
      (BoundValueCollection.apply ⟨pre ++ post⟩ n).1 ∧
    transformErrMsg bv ∈ (BoundValueCollection.apply ⟨pre ++ bv :: post⟩ n).2 := by
  unfold BoundValueCollection.apply
  have key : ∀ m : Node, applyValues m (bv :: post) =
      ((applyValues m post).1, transformErrMsg bv :: (applyValues m post).2) := by
    intro m
    simp [applyValues, applyOne_mismatched h]
  rw [applyValues_append pre (bv :: post) n, applyValues_append pre post n, key]
  exact ⟨rfl, by simp⟩

/-- Witness for C5: a `Rotation` entry holding a vector is skipped with the
rotation error reported, while the following `Position` entry still applies. -/
theorem collection_apply_skips_mismatched_transform_w :
    (BoundValueCollection.apply
        ⟨[⟨.Rotation, .Vector3 ⟨1, 2, 3⟩⟩, ⟨.Position, .Vector3 ⟨4, 5, 6⟩⟩]⟩
        sampleNode).1 =
      (BoundValueCollection.apply ⟨[⟨.Position, .Vector3 ⟨4, 5, 6⟩⟩]⟩
        sampleNode).1 ∧
    transformErrMsg ⟨.Rotation, .Vector3 ⟨1, 2, 3⟩⟩ ∈
      (BoundValueCollection.apply
        ⟨[⟨.Rotation, .Vector3 ⟨1, 2, 3⟩⟩, ⟨.Position, .Vector3 ⟨4, 5, 6⟩⟩]⟩
        sampleNode).2 :=
  collection_apply_skips_mismatched_transform ⟨.Rotation, .Vector3 ⟨1, 2, 3⟩⟩
    (Or.inl ⟨rfl, ⟨1, 2, 3⟩, rfl⟩) [] [⟨.Position, .Vector3 ⟨4, 5, 6⟩⟩] sampleNode

/-- C8 counterexample: at the antipodal unit quaternions with scalar parts
`1` and `-1` and `t = 1/2` the linear interpolant vanishes, the
normalization divides by the zero norm, and `interpolate` produces the zero
quaternion, which is not unit-length. -/
theorem rotation_interpolate_not_unit_cex :
    Quat.normSq ⟨0, 0, 0, 1⟩ = 1 ∧ Quat.normSq ⟨0, 0, 0, -1⟩ = 1 ∧
    TrackValue.interpolate (.UnitQuaternion ⟨0, 0, 0, 1⟩)
      (.UnitQuaternion ⟨0, 0, 0, -1⟩) (1 / 2) =
      some (.UnitQuaternion ⟨0, 0, 0, 0⟩) ∧
    Quat.normSq ⟨0, 0, 0, 0⟩ ≠ 1 := by
  refine ⟨by norm_num [Quat.normSq], by norm_num [Quat.normSq], ?_,
    by norm_num [Quat.normSq]⟩
  have hl : Quat.lerp ⟨0, 0, 0, 1⟩ ⟨0, 0, 0, -1⟩ (1 / 2) = ⟨0, 0, 0, 0⟩ := by
    norm_num [Quat.lerp]
  rw [show TrackValue.interpolate (.UnitQuaternion (⟨0, 0, 0, 1⟩ : Quat))
    (.UnitQuaternion ⟨0, 0, 0, -1⟩) (1 / 2) =
    some (.UnitQuaternion (Quat.nlerp ⟨0, 0, 0, 1⟩ ⟨0, 0, 0, -1⟩ (1 / 2)))
    from rfl]
  rw [Quat.nlerp, hl]
  norm_num [Quat.normalize, Quat.norm, Quat.normSq, Real.sqrt_zero]

/-- C8 (amended): on unit-length rotation values both `interpolate` and
`blend_with` produce the normalized-linear interpolation, which is again
unit-length provided the linear interpolant is nonzero (at antipodal inputs
the interpolant can vanish and normalization degenerates). -/
theorem rotation_nlerp_unit_of_nonzero (a b : Quat) (t weight : ℝ)
    (_ha : a.normSq = 1) (_hb : b.normSq = 1) :
    (Quat.normSq (a.lerp b t) ≠ 0 →
      TrackValue.interpolate (.UnitQuaternion a) (.UnitQuaternion b) t =
        some (.UnitQuaternion (a.nlerp b t)) ∧ (a.nlerp b t).normSq = 1) ∧
    (Quat.normSq (a.lerp b weight) ≠ 0 →
      TrackValue.blendWith (.UnitQuaternion a) (.UnitQuaternion b) weight =
        .UnitQuaternion (a.nlerp b weight) ∧ (a.nlerp b weight).normSq = 1) :=
  ⟨fun h => ⟨rfl, Quat.normSq_normalize h⟩,
   fun h => ⟨rfl, Quat.normSq_normalize h⟩⟩

/-- Witness for C8 (amended) at the identity rotation. -/
theorem rotation_nlerp_unit_of_nonzero_w :
    (Quat.nlerp ⟨0, 0, 0, 1⟩ ⟨0, 0, 0, 1⟩ 0).normSq = 1 := by
  have h := rotation_nlerp_unit_of_nonzero ⟨0, 0, 0, 1⟩ ⟨0, 0, 0, 1⟩ 0 0
    (by norm_num [Quat.normSq]) (by norm_num [Quat.normSq])
  exact (h.1 (by norm_num [Quat.lerp, Quat.normSq])).2

end Fyrox
